import Mathlib

/-!
Verification of the MPM-NGF particle-grid transfer engine.

This file gives a shallow embedding, in exact arithmetic, of the parts of the
MPM-NGF sources relevant to the frozen claims:

* the `GridState` bit packing (`src/unnamed/part_000`, struct `GridState`);
* the coloring / CPIC compatibility test (`src/src/transfer.cpp`, `rasterize`);
* the quadratic MLS B-spline kernel (`src/src/transfer.cpp`,
  `MLSMPMFastKernel32`);
* the mass lane of the P2G rasterize scatter (`src/src/transfer.cpp`,
  `MPM<dim>::rasterize`);
* `friction_project` (`src/unnamed/part_000`);
* `VonMisesParticle::plasticity`, `NonlocalParticle::plasticity` and
  `ViscoParticle::approximate_exponent` (`src/unnamed/part_000`);
* the post-gather APIC assignments of the three resample code paths
  (`src/src/transfer.cpp`, `resample` and `resample_optimized`).

Machine floats are modelled by exact arithmetic: `ℝ` for the SIMD float
lanes (the sources apply `sqrt`, `log`, `exp`) and `ℕ` for the packed 32-bit
`states` words, with explicit masking where the C++ relies on the 32-bit
width.  Calls into the taichi math library that are not part of this
repository (`svd`, `inverse`, `damp_affine_momemtum`) are passed as explicit
arguments of the embedded functions, so every theorem quantifies over their
results.
-/

namespace MPMNGF

/-! ## GridState bit packing

Embedding of `GridState` from `src/unnamed/part_000`, lines 74-129.  The
`states` field is a `uint32`, modelled as a natural number below `2^32`.
-/

/-- Constant `GridState::max_num_rigid_bodies = 12` (`part_000`, line 93). -/
def maxNumRigidBodies : ℕ := 12

/-- Constant `GridState::total_bits = 32` (`part_000`, line 94). -/
def totalBits : ℕ := 32

/-- Constant `GridState::tag_bits = max_num_rigid_bodies * 2` (`part_000`, line 95). -/
def tagBits : ℕ := maxNumRigidBodies * 2

/-- Constant `GridState::id_bits = total_bits - tag_bits` (`part_000`, line 96). -/
def idBits : ℕ := totalBits - tagBits

/-- Constant `GridState::tag_mask = (1u << tag_bits) - 1` (`part_000`, line 98). -/
def tagMask : ℕ := (1 <<< tagBits) - 1

/-- Constant `GridState::id_mask = ((1u << id_bits) - 1u) << tag_bits` (`part_000`,
line 99). -/
def idMask : ℕ := ((1 <<< idBits) - 1) <<< tagBits

/-- The all-ones word of a `uint32`; C++ `~x` on `uint32` is `u32Ones ^^^ x`. -/
def u32Ones : ℕ := (1 <<< totalBits) - 1

/-- Accessor `GridState::get_rigid_body_id`: `(states >> tag_bits) - 1` (`part_000`,
lines 102-104).  The subtraction happens after conversion to `int`, so the
result is an integer (`-1` encodes "no rigid body"). -/
def getRigidBodyId (states : ℕ) : ℤ :=
  (states >>> tagBits : ℕ) - 1

/-- Mutator `GridState::set_rigid_body_id`:
`states = (states & ~id_mask) | ((id + 1) << tag_bits)` (`part_000`,
lines 106-108).  The assignment stores into a `uint32`, hence the final
reduction modulo `2 ^ 32`. -/
def setRigidBodyId (states : ℕ) (id : ℕ) : ℕ :=
  ((states &&& (u32Ones ^^^ idMask)) ||| ((id + 1) <<< tagBits)) %
    2 ^ totalBits

/-- Accessor `GridState::get_states`: `states & tag_mask` (`part_000`, lines 118-120). -/
def getStates (states : ℕ) : ℕ :=
  states &&& tagMask

/-- Mutator `GridState::set_states`:
`states = (states & ~tag_mask) | new_states` (`part_000`, lines 122-124).
The assignment stores into a `uint32`, hence the final reduction modulo
`2 ^ 32`. -/
def setStates (states : ℕ) (newStates : ℕ) : ℕ :=
  ((states &&& (u32Ones ^^^ tagMask)) ||| newStates) % 2 ^ totalBits

/-! ## Coloring test

The compatibility test of the rasterize/resample kernels
(`src/src/transfer.cpp`, lines 227-231, 427-432, 651-655, 794-800):

    uint64 grid_state = g.get_states(), particle_state = p.states;
    uint64 mask = (grid_state & particle_state & state_mask) >> 1;
    if ((grid_state & mask) != (particle_state & mask)) ...
-/

/-- Modelled from the spec: the constant `state_mask` is declared in `mpm.h`,
which is not among the provided sources.  Per §4.H of the spec, `states`
packs, for each rigid body `r < 12`, an "active" bit at position `2r+1` and a
"side" bit at position `2r`; `state_mask` selects the active bits, so that
`(grid & particle & state_mask) >> 1` has a bit at position `2r` exactly when
both words are active for `r`.  Hence `state_mask` is the word with ones at
all odd positions of the 24-bit tag region. -/
def stateMask : ℕ := 0xAAAAAA

/-- The mask `mask = (grid_state & particle_state & state_mask) >> 1`
(`transfer.cpp`, line 229). -/
def coloringMask (gridState particleState : ℕ) : ℕ :=
  (gridState &&& particleState &&& stateMask) >>> 1

/-- The test `(grid_state & mask) != (particle_state & mask)`
(`transfer.cpp`, line 231): true when the particle must not write to this
grid node (it sits on the far side of a rigid body). -/
def colorMismatch (gridState particleState : ℕ) : Prop :=
  gridState &&& coloringMask gridState particleState ≠
    particleState &&& coloringMask gridState particleState

instance (g p : ℕ) : Decidable (colorMismatch g p) := by
  unfold colorMismatch; infer_instance

/-! ## Quadratic MLS B-spline kernel

Embedding of `MLSMPMFastKernel32` (`src/src/transfer.cpp`, lines 161-190).
For the axis-relative coordinate `xr` (particle position in grid units minus
the stencil start cell), the constructor computes `p_fract = xr - 0.5`,
`t i = p_fract - c i` with `c = (-0.5, 0.5, 1.5)`, and the per-axis weights
`w i = a i * t i ^ 2 + b i * t i + d i` with `a = (0.5, -1, 0.5)`,
`b = (-1.5, 0, 1.5)`, `d = (1.125, 0.75, 1.125)`.  The fourth SIMD lane is
zero and never read. -/

variable {K : Type} [Field K]

/-- The subtracted node offsets `make_float4(-0.5f, 0.5f, 1.5f, 0.0f)`. -/
def kernelC : Fin 3 → K := ![-(1/2), 1/2, 3/2]

/-- The quadratic coefficients `make_float4(0.5f, -1.0f, 0.5f, 0.0f)`. -/
def kernelA : Fin 3 → K := ![1/2, -1, 1/2]

/-- The linear coefficients `make_float4(-1.5f, 0.0f, 1.5f, 0.0f)`. -/
def kernelB : Fin 3 → K := ![-(3/2), 0, 3/2]

/-- The constant coefficients `make_float4(1.125f, 0.75f, 1.125f, 0.0f)`. -/
def kernelD : Fin 3 → K := ![9/8, 3/4, 9/8]

/-- Per-axis weight lane `i` of `w_cache`, as a function of the axis-relative
coordinate `xr` (`transfer.cpp`, lines 168-178). -/
def wAxis (xr : K) (i : Fin 3) : K :=
  kernelA i * ((xr - 1/2) - kernelC i) ^ 2 +
    kernelB i * ((xr - 1/2) - kernelC i) + kernelD i

/-- The 3×3×3 stencil weight `kernels[i][j] = w_cache[0][i] * w_cache[1][j] *
w_cache[2]` (`transfer.cpp`, lines 179-184). -/
def kernelWeight (xr yr zr : K) (n : Fin 3 × Fin 3 × Fin 3) : K :=
  wAxis xr n.1 * wAxis yr n.2.1 * wAxis zr n.2.2

/-- Function `MLSMPMFastKernel32::get_stencil_start(x) = int(x - 0.5f)`
(`transfer.cpp`, lines 187-189), likewise `get_grid_base_pos`.  The `int`
cast truncates toward zero; for the nonnegative grid-unit positions of the
simulation domain this is the floor. -/
noncomputable def stencilStart (x : ℝ) : ℤ := ⌊x - 1/2⌋

/-! ## Mass lane of the P2G rasterize scatter

Embedding of the mass transfer of `MPM<dim>::rasterize`
(`src/src/transfer.cpp`, lines 192-278) at `dim = 3`.  Only the fourth
(mass) lane of `velocity_and_mass` is modelled; in every branch of the
kernel the mass lane of the accumulated `delta` is `dw_w[dim] * mass`
(the momentum lanes carry the APIC and stress terms, whose `VectorP`
constructors pad the fourth lane with `0`, lines 256-270).  Rigid particles
are skipped at loop entry (line 199), and when the coloring test reports a
mismatch the loop `continue`s — via the rigid-impulse branch — without ever
writing to `velocity_and_mass` (lines 231-254). -/

/-- The per-particle state read by the rasterize mass scatter: position in
world units times `inv_delta_x` is the grid-unit position, so positions are
kept directly in grid units here. -/
structure MassParticle where
  posx : ℝ
  posy : ℝ
  posz : ℝ
  mass : ℝ
  states : ℕ
  isRigid : Bool

/-- The grid cell written by stencil node `n` of particle `p`:
`i = ind.get_ipos() + grid_base_pos` (`transfer.cpp`, line 222). -/
noncomputable def stencilCell (p : MassParticle) (n : Fin 3 × Fin 3 × Fin 3) :
    ℤ × ℤ × ℤ :=
  (stencilStart p.posx + n.1, stencilStart p.posy + n.2.1,
    stencilStart p.posz + n.2.2)

/-- The stencil weight `dw_w[dim]` of node `n` for particle `p`: the kernel is
evaluated at the position relative to the stencil start. -/
noncomputable def stencilWeight (p : MassParticle)
    (n : Fin 3 × Fin 3 × Fin 3) : ℝ :=
  kernelWeight (p.posx - stencilStart p.posx) (p.posy - stencilStart p.posy)
    (p.posz - stencilStart p.posz) n

/-- The mass a single particle scatters onto the grid during rasterize,
as a finitely supported mass field: nothing if the particle is rigid
(line 199); for each of the 27 stencil nodes, nothing if the coloring test
reports a mismatch (lines 227-254), and otherwise `dw_w[dim] * mass` added
into the node's cell (lines 256-271). -/
noncomputable def particleMassSpread (gridStates : ℤ × ℤ × ℤ → ℕ)
    (p : MassParticle) : (ℤ × ℤ × ℤ) →₀ ℝ :=
  if p.isRigid then 0
  else
    ∑ n : Fin 3 × Fin 3 × Fin 3,
      if colorMismatch (getStates (gridStates (stencilCell p n))) p.states then 0
      else Finsupp.single (stencilCell p n) (stencilWeight p n * p.mass)

/-- The mass field accumulated on the grid by rasterizing a list of
particles, starting from the cleared grid. -/
noncomputable def p2gMassGrid (gridStates : ℤ × ℤ × ℤ → ℕ)
    (ps : List MassParticle) : (ℤ × ℤ × ℤ) →₀ ℝ :=
  ps.foldl (fun g p => g + particleMassSpread gridStates p) 0

/-- Total `Σ_cells mass`: the total mass on the grid. -/
noncomputable def gridTotalMass (g : (ℤ × ℤ × ℤ) →₀ ℝ) : ℝ :=
  g.sum fun _ m => m

/-! ## friction_project

Embedding of `friction_project` (`src/unnamed/part_000`, lines 28-60) at
`dim = 3`.  `length` is the Euclidean norm `sqrt (dot v v)` of the taichi
math library. -/

/-- Vectors in dimension 3. -/
abbrev V3 := Fin 3 → ℝ

/-- Function `dot` of the taichi math library. -/
def dot3 (a b : V3) : ℝ := ∑ i, a i * b i

/-- Function `length` of the taichi math library. -/
noncomputable def length3 (a : V3) : ℝ := Real.sqrt (dot3 a a)

/-- The vector `relative_vel - normal_norm * normal` (`part_000`, line 49), with
`relative_vel = velocity - base_velocity` and
`normal_norm = dot(normal, relative_vel)`. -/
noncomputable def tangentialRelVel (velocity baseVelocity normal : V3) : V3 :=
  (velocity - baseVelocity) -
    dot3 normal (velocity - baseVelocity) • normal

/-- The only divisor appearing in `friction_project`:
`std::max(1e-30_f, tangential_norm)` (`part_000`, line 53). -/
noncomputable def frictionDenominator (velocity baseVelocity normal : V3) : ℝ :=
  max 1e-30 (length3 (tangentialRelVel velocity baseVelocity normal))

/-- Function `friction_project(velocity, base_velocity, normal, friction)`
(`part_000`, lines 28-60). -/
noncomputable def frictionProject (velocity baseVelocity normal : V3)
    (friction : ℝ) : V3 :=
  if friction = -1 then baseVelocity
  else
    let slip := friction ≤ -2
    let friction2 := if slip then -friction - 2 else friction
    let normalNorm := dot3 normal (velocity - baseVelocity)
    let tangentialScale :=
      max (length3 (tangentialRelVel velocity baseVelocity normal) +
          min normalNorm 0 * friction2) 0 /
        frictionDenominator velocity baseVelocity normal
    (tangentialScale • tangentialRelVel velocity baseVelocity normal +
        max 0 (normalNorm * (if slip then 0 else 1)) • normal) +
      baseVelocity

/-! ## VonMisesParticle::plasticity

Embedding of `VonMisesParticle::plasticity` (`src/unnamed/part_000`, lines
901-920) at `dim = 3`.  The call `svd(this->dg_e, U, sigma, V)` goes to the
taichi math library, which is not part of this repository; the decomposition
`U, sigma, V` of the updated deformation gradient is therefore passed in as
arguments, and `sigma` is the diagonal of the singular-value matrix.  taichi's
`frobenius_norm2` is the squared Frobenius norm (it is the square of
`frobenius_norm`, compare `part_000` line 268). -/

/-- Real matrices of size 3×3. -/
abbrev Mat3 := Matrix (Fin 3) (Fin 3) ℝ

/-- Strain `epsilon = log(sigma)` applied to the diagonal (`part_000`, lines
905-906). -/
noncomputable def vmEpsilon (sigma : Fin 3 → ℝ) (i : Fin 3) : ℝ :=
  Real.log (sigma i)

/-- Trace `trace_epsilon = epsilon.trace()` (`part_000`, line 907). -/
noncomputable def vmTraceEpsilon (sigma : Fin 3 → ℝ) : ℝ :=
  ∑ i, vmEpsilon sigma i

/-- Deviator `epsilon_hat = epsilon - (trace_epsilon / dim) * I` (`part_000`, line
908), as the diagonal of the (diagonal) matrix. -/
noncomputable def vmEpsilonHat (sigma : Fin 3 → ℝ) (i : Fin 3) : ℝ :=
  vmEpsilon sigma i - vmTraceEpsilon sigma / 3

/-- Norm `epsilon_hat_norm = epsilon_hat.frobenius_norm2()` (`part_000`, line
909): the SQUARED Frobenius norm of the deviatoric log-strain. -/
noncomputable def vmDevNorm2 (sigma : Fin 3 → ℝ) : ℝ :=
  ∑ i, vmEpsilonHat sigma i ^ 2

/-- Method `VonMisesParticle::plasticity(cdg)` (`part_000`, lines 901-920):
returns the new `dg_e` and the returned counter. -/
noncomputable def vonMisesPlasticity (mu0 yieldStress : ℝ) (dgE cdg U V : Mat3)
    (sigma : Fin 3 → ℝ) : Mat3 × ℤ :=
  let dgE1 := cdg * dgE
  let deltaGamma := vmDevNorm2 sigma - yieldStress / (2 * mu0)
  if deltaGamma ≤ 0 then (dgE1, 0)
  else
    let H : Fin 3 → ℝ := fun i =>
      vmEpsilon sigma i - deltaGamma / vmDevNorm2 sigma * vmEpsilonHat sigma i
    (U * Matrix.diagonal (fun i => Real.exp (H i)) * V.transpose, 1)

/-! ## NonlocalParticle::plasticity

Embedding of `NonlocalParticle::plasticity` (`src/unnamed/part_000`, lines
1094-1233) at `dim = 3`.  As for Von Mises, the library calls `svd(dg_el, u,
sig, v)` and `inverse(this->dg_p)` are external: the SVD factors `U, sig, V`
of `dg_el = dg_t * inverse(dg_p)` (after the `dg_t` update) are passed as
arguments.  The local `mu` is only stored for visualization and is not part
of the particle state. -/

/-- The material constants set by `NonlocalParticle::initialize`
(`part_000`, lines 1070-1085). -/
structure NonlocalParams where
  S_mod : ℝ
  B_mod : ℝ
  A_mat : ℝ
  dia : ℝ
  rho_s : ℝ
  rho_c : ℝ
  mu_s : ℝ
  mu_2 : ℝ
  I_0 : ℝ
  t_0 : ℝ
  delta_t : ℝ

/-- The particle fields read and written by `NonlocalParticle::plasticity`
(`mass` and `vol` are the base-particle accessors). -/
structure NonlocalState where
  dg_t : Mat3
  dg_p : Mat3
  T : Mat3
  p : ℝ
  tau : ℝ
  gf : ℝ
  mass : ℝ
  vol : ℝ

/-- The `kinematics` lambda (`part_000`, lines 1101-1112):
`L = (1/delta_t)(cdg - I)`, `D = (L + Lᵀ)/2`, `D_0 = D`, and the equivalent
shear strain rate `1.414 * sqrt(Σ_ij D_0[i][j]^2)`. -/
noncomputable def nonlocalKinematics (cdg : Mat3) (delta_t : ℝ) : ℝ :=
  let L := (1 / delta_t) • (cdg - 1)
  let D := (1/2 : ℝ) • (L + L.transpose)
  let D0 := D
  1.414 * Real.sqrt (∑ i, ∑ j, D0 i j ^ 2)

/-- Method `NonlocalParticle::plasticity(cdg, laplacian_gf)` (`part_000`, lines
1094-1233), returning the updated particle state. -/
noncomputable def nonlocalPlasticity (pr : NonlocalParams) (st : NonlocalState)
    (cdg : Mat3) (laplacian_gf : ℝ) (U V : Mat3) (sig : Fin 3 → ℝ) :
    NonlocalState :=
  let eps : ℝ := 1e-20
  let p_n := st.p
  let dg_t1 := cdg * st.dg_t
  let rho := st.mass / st.vol / dg_t1.det
  let logSig : Mat3 := Matrix.diagonal fun i => Real.log (sig i)
  let Re := U * V.transpose
  let Ee := V * logSig * V.transpose
  let trEe := Ee.trace
  let Ee0 := Ee - (trEe / 3) • (1 : Mat3)
  let Me := (2 * pr.S_mod) • Ee0 + (pr.B_mod * trEe) • (1 : Mat3)
  let p1 := -Me.trace / 3
  if rho < pr.rho_c ∨ p1 ≤ 0 then
    { st with
      dg_t := dg_t1
      T := 0
      dg_p := dg_t1
      p := 0
      gf := max 0 (nonlocalKinematics cdg pr.delta_t / pr.mu_2) }
  else
    let mu1 := min (st.tau / p_n) (pr.mu_2 - eps)
    let gdot_loc := -((pr.mu_s - mu1) * st.gf) -
      (pr.mu_2 - pr.mu_s) / pr.I_0 *
        Real.sqrt (pr.rho_s * pr.dia ^ 2 / p_n) * mu1 * st.gf ^ 2
    let gdot_nonloc := pr.A_mat ^ 2 * pr.dia ^ 2 * laplacian_gf
    let gf1 := max 0 (pr.delta_t * (gdot_loc + gdot_nonloc) / pr.t_0 + st.gf)
    let Me0 := Me + p1 • (1 : Mat3)
    let Me0mag := Real.sqrt (∑ i, ∑ j, Me0 i j ^ 2)
    let tauTrial := 0.707 * Me0mag
    let Np : Mat3 := if tauTrial > 0 then (0.707 / tauTrial) • Me0 else 0
    let gf2 :=
      if p_n = 0 then max 0 (nonlocalKinematics cdg pr.delta_t / pr.mu_2)
      else gf1
    let tau1 := tauTrial * p1 / max (p1 + pr.S_mod * pr.delta_t * gf2) eps
    let tau2 := if tau1 < 0 then 0 else tau1
    let tau3 := if tau2 > tauTrial then tauTrial else tau2
    let Me1 := Me - (1.414 * (tauTrial - tau3)) • Np
    let mu2 := if p_n > 0 then min (tau3 / max p1 eps) (pr.mu_2 - eps)
      else pr.mu_2
    let T1 := (1 / dg_t1.det) • (Re * Me1 * Re.transpose)
    let dg_p1 := (1 + (pr.delta_t * 0.707 * mu2 * gf2) • Np) * st.dg_p
    { st with
      dg_t := dg_t1
      p := p1
      gf := gf2
      tau := tau3
      T := T1
      dg_p := dg_p1 }

/-! ## Post-gather APIC assignment of the resample paths

After the 27-node gather, each resample code path assigns the particle's
APIC matrices from the accumulators `b` (and `c`).  `damp_affine_momemtum`
is defined in `mpm.h`, outside the provided sources; it is passed as an
argument and never applied in the branches the claims are about.  The three
paths:

* generic `MPM<dim>::resample` (`src/src/transfer.cpp`, lines 684-691):
  `if (p.near_boundary()) p.apic_b = Matrix(0); else p.apic_b =
  damp_affine_momemtum(b);` — `apic_c` is never assigned on this path;
* `MPM<3>::resample_optimized`, `block_op_rigid` (lines 848-854):
  `if (p.near_boundary()) { p.apic_b = Matrix(0); p.apic_c = Matrix(0); }
  else { p.apic_b = damp_affine_momemtum(b); p.apic_c =
  damp_affine_momemtum(c); }`;
* `MPM<3>::resample_optimized`, `block_op_normal` (lines 980-988):
  `if (rpic_damping != 0 && apic_damping != 0) p.apic_b =
  damp_affine_momemtum(b); else { p.apic_b = b; p.apic_c = c; }` — this path
  never consults `near_boundary()`.

Each embedded function returns the pair `(apic_b, apic_c)` after the
assignment, given the values before it. -/

/-- Post-gather APIC assignment of generic `MPM<dim>::resample`
(`transfer.cpp`, lines 684-691). -/
def resampleApicGeneric (nearBoundary : Bool) (damp : Mat3 → Mat3)
    (b apicB apicC : Mat3) : Mat3 × Mat3 :=
  if nearBoundary then (0, apicC) else (damp b, apicC)

/-- Post-gather APIC assignment of `block_op_rigid` in
`MPM<3>::resample_optimized` (`transfer.cpp`, lines 848-854). -/
def resampleApicRigid (nearBoundary : Bool) (damp : Mat3 → Mat3)
    (b c apicB apicC : Mat3) : Mat3 × Mat3 :=
  if nearBoundary then (0, 0) else (damp b, damp c)

/-- Post-gather APIC assignment of `block_op_normal` in
`MPM<3>::resample_optimized` (`transfer.cpp`, lines 980-988). -/
noncomputable def resampleApicNormal (rpicDamping apicDamping : ℝ)
    (damp : Mat3 → Mat3) (b c apicB apicC : Mat3) : Mat3 × Mat3 :=
  if rpicDamping ≠ 0 ∧ apicDamping ≠ 0 then (damp b, apicC) else (b, c)

/-! ## ViscoParticle::approximate_exponent

Embedding of `ViscoParticle::approximate_exponent` (`src/unnamed/part_000`,
lines 247-260):

    Matrix s = m * dt;
    Matrix r = (s * 0.5_f + Matrix(1.0_f)) * s + Matrix(1.0_f);
    if (determinant(r) > 0.0_f) return r;
    Matrix tmp = approximate_exponent(dt / 2, m);
    return tmp * tmp;

The C++ recursion carries no termination measure, so the embedding is
indexed by a fuel bound on the recursion depth; `none` means the recursion
did not return within the given depth.  Claim C10 is the statement that for
every matrix and every positive `dt` some finite fuel suffices. -/

/-- The candidate result `r = (s * 0.5 + I) * s + I` with `s = m * dt`
(`part_000`, lines 248-249). -/
noncomputable def approxExpStep (m : Mat3) (dt : ℝ) : Mat3 :=
  ((1/2 : ℝ) • (dt • m) + 1) * (dt • m) + 1

/-- Fuel-indexed `approximate_exponent(dt, m)` (`part_000`, lines 247-260). -/
noncomputable def approximateExponent (m : Mat3) : ℕ → ℝ → Option Mat3
  | 0, _ => none
  | fuel + 1, dt =>
    if 0 < (approxExpStep m dt).det then some (approxExpStep m dt)
    else (approximateExponent m fuel (dt / 2)).map fun tmp => tmp * tmp

/-! ## Helper lemmas -/

theorem tagBits_eq : tagBits = 24 := rfl

theorem idBits_eq : idBits = 8 := rfl

theorem land_two_pow_sub_one (x n : ℕ) : x &&& (2 ^ n - 1) = x % 2 ^ n := by
  apply Nat.eq_of_testBit_eq
  intro j
  simp [Nat.testBit_land, Nat.testBit_two_pow_sub_one, Nat.testBit_mod_two_pow,
    Bool.and_comm]

theorem stateMask_testBit (k : ℕ) :
    stateMask.testBit k = (decide (k % 2 = 1) && decide (k < 24)) := by
  rcases lt_or_ge k 24 with h | h
  · interval_cases k <;> decide
  · have h1 : stateMask < 2 ^ k := by
      calc stateMask < 2 ^ 24 := by unfold stateMask; norm_num
      _ ≤ 2 ^ k := Nat.pow_le_pow_right (by norm_num) h
    simp [Nat.testBit_lt_two_pow h1, h, Nat.not_lt.mpr h]

theorem u32Ones_eq : u32Ones = 2 ^ 32 - 1 := by
  unfold u32Ones totalBits
  rw [Nat.one_shiftLeft]

theorem idMask_eq : idMask = (2 ^ 8 - 1) <<< 24 := by
  unfold idMask idBits totalBits tagBits maxNumRigidBodies
  norm_num [Nat.one_shiftLeft]

theorem tagMask_eq : tagMask = 2 ^ 24 - 1 := by
  unfold tagMask tagBits maxNumRigidBodies
  norm_num [Nat.one_shiftLeft]

theorem notIdMask_testBit (k : ℕ) :
    (u32Ones ^^^ idMask).testBit k = decide (k < 24) := by
  simp only [u32Ones_eq, idMask_eq, Nat.testBit_xor,
    Nat.testBit_two_pow_sub_one, Nat.testBit_shiftLeft]
  by_cases h1 : k < 24
  · have h2 : k < 32 := by omega
    have h3 : ¬ k ≥ 24 := by omega
    simp [h1, h2, h3]
  · by_cases h2 : k < 32
    · have h3 : k ≥ 24 := by omega
      have h4 : k - 24 < 8 := by omega
      simp [h1, h2, h3, h4]
    · have h3 : k ≥ 24 := by omega
      have h4 : ¬ (k - 24 < 8) := by omega
      simp [h1, h2, h3, h4]

theorem notTagMask_testBit (k : ℕ) :
    (u32Ones ^^^ tagMask).testBit k = (decide (24 ≤ k) && decide (k < 32)) := by
  simp only [u32Ones_eq, tagMask_eq, Nat.testBit_xor,
    Nat.testBit_two_pow_sub_one]
  by_cases h1 : k < 24
  · have h2 : k < 32 := by omega
    have h3 : ¬ 24 ≤ k := by omega
    simp [h1, h2, h3]
  · by_cases h2 : k < 32
    · have h3 : 24 ≤ k := by omega
      simp [h1, h2, h3]
    · have h3 : 24 ≤ k := by omega
      simp [h1, h2, h3]

theorem testBit_high_false (x n k : ℕ) (hx : x < 2 ^ n) (hk : n ≤ k) :
    x.testBit k = false :=
  Nat.testBit_lt_two_pow
    (lt_of_lt_of_le hx (Nat.pow_le_pow_right (by norm_num) hk))

theorem setRigidBodyId_unwrapped (s i : ℕ) (hs : s < 2 ^ 32)
    (hi : i + 1 < 2 ^ 8) :
    setRigidBodyId s i = (s &&& (u32Ones ^^^ idMask)) |||
      ((i + 1) <<< tagBits) := by
  unfold setRigidBodyId
  have h0 : totalBits = 32 := rfl
  rw [h0]
  apply Nat.mod_eq_of_lt
  apply Nat.bitwise_lt_two_pow
  · exact lt_of_le_of_lt Nat.and_le_left hs
  · rw [tagBits_eq, Nat.shiftLeft_eq]
    have h8 : i + 1 ≤ 255 := by omega
    calc (i + 1) * 2 ^ 24 ≤ 255 * 2 ^ 24 := Nat.mul_le_mul_right _ h8
    _ < 2 ^ 32 := by norm_num

theorem setStates_unwrapped (s ns : ℕ) (hs : s < 2 ^ 32) (hns : ns < 2 ^ 24) :
    setStates s ns = (s &&& (u32Ones ^^^ tagMask)) ||| ns := by
  unfold setStates
  have h0 : totalBits = 32 := rfl
  rw [h0]
  apply Nat.mod_eq_of_lt
  apply Nat.bitwise_lt_two_pow
  · exact lt_of_le_of_lt Nat.and_le_left hs
  · exact lt_of_lt_of_le hns (by norm_num)

theorem gridTotalMass_zero : gridTotalMass 0 = 0 := by
  unfold gridTotalMass
  simp

theorem gridTotalMass_add (g1 g2 : (ℤ × ℤ × ℤ) →₀ ℝ) :
    gridTotalMass (g1 + g2) = gridTotalMass g1 + gridTotalMass g2 := by
  unfold gridTotalMass
  apply Finsupp.sum_add_index' <;> simp

theorem gridTotalMass_single (c : ℤ × ℤ × ℤ) (v : ℝ) :
    gridTotalMass (Finsupp.single c v) = v := by
  unfold gridTotalMass
  apply Finsupp.sum_single_index
  rfl

theorem gridTotalMass_finsum {α : Type} (s : Finset α)
    (f : α → (ℤ × ℤ × ℤ) →₀ ℝ) :
    gridTotalMass (∑ x ∈ s, f x) = ∑ x ∈ s, gridTotalMass (f x) := by
  classical
  induction s using Finset.induction_on with
  | empty => simp [gridTotalMass_zero]
  | insert h ih => simp_all [Finset.sum_insert h, gridTotalMass_add]

theorem dot3_self_nonneg (v : V3) : 0 ≤ dot3 v v :=
  Finset.sum_nonneg fun i _ => mul_self_nonneg (v i)

theorem dot3_self_eq_zero (v : V3) (h : dot3 v v = 0) : v = 0 := by
  funext i
  have h2 : ∀ j ∈ Finset.univ, 0 ≤ v j * v j := fun j _ => mul_self_nonneg (v j)
  have h3 := (Finset.sum_eq_zero_iff_of_nonneg h2).mp h i (Finset.mem_univ i)
  exact mul_self_eq_zero.mp h3

theorem wAxis_sum (xr : ℝ) : ∑ i, wAxis xr i = 1 := by
  simp only [Fin.sum_univ_three, wAxis, kernelA, kernelB, kernelC, kernelD]
  norm_num [Matrix.cons_val_zero, Matrix.cons_val_one, Matrix.head_cons]
  ring

theorem kernelWeight_sum (xr yr zr : ℝ) :
    ∑ n : Fin 3 × Fin 3 × Fin 3, kernelWeight xr yr zr n = 1 := by
  have hx := wAxis_sum xr
  have hy := wAxis_sum yr
  have hz := wAxis_sum zr
  rw [Fin.sum_univ_three] at hx hy hz
  rw [Fintype.sum_prod_type]
  simp only [Fintype.sum_prod_type, kernelWeight, Fin.sum_univ_three]
  linear_combination (wAxis yr 0 + wAxis yr 1 + wAxis yr 2) *
      (wAxis zr 0 + wAxis zr 1 + wAxis zr 2) * hx +
    (wAxis zr 0 + wAxis zr 1 + wAxis zr 2) * hy + hz

theorem particleMassSpread_total (gridStates : ℤ × ℤ × ℤ → ℕ)
    (p : MassParticle) (hrigid : p.isRigid = false)
    (hcompat : ∀ n : Fin 3 × Fin 3 × Fin 3,
      ¬ colorMismatch (getStates (gridStates (stencilCell p n))) p.states) :
    gridTotalMass (particleMassSpread gridStates p) = p.mass := by
  unfold particleMassSpread
  rw [if_neg (by simp [hrigid])]
  rw [gridTotalMass_finsum]
  rw [Finset.sum_congr rfl fun n _ => by
    rw [if_neg (hcompat n), gridTotalMass_single]]
  rw [← Finset.sum_mul]
  have hw : ∑ n : Fin 3 × Fin 3 × Fin 3, stencilWeight p n = 1 := by
    unfold stencilWeight
    exact kernelWeight_sum _ _ _
  rw [hw, one_mul]

theorem p2gMassGrid_total_from (gridStates : ℤ × ℤ × ℤ → ℕ) :
    ∀ (ps : List MassParticle) (g0 : (ℤ × ℤ × ℤ) →₀ ℝ),
      (∀ p ∈ ps, p.isRigid = false ∧
        ∀ n : Fin 3 × Fin 3 × Fin 3,
          ¬ colorMismatch (getStates (gridStates (stencilCell p n)))
            p.states) →
      gridTotalMass
          (ps.foldl (fun g p => g + particleMassSpread gridStates p) g0) =
        gridTotalMass g0 + (ps.map MassParticle.mass).sum := by
  intro ps
  induction ps with
  | nil =>
    intro g0 h
    simp
  | cons p ps ih =>
    intro g0 h
    simp only [List.foldl_cons, List.map_cons, List.sum_cons]
    rw [ih (g0 + particleMassSpread gridStates p)
      fun q hq => h q (List.mem_cons_of_mem _ hq)]
    rw [gridTotalMass_add]
    rw [particleMassSpread_total gridStates p
      (h p (List.mem_cons_self _ _)).1 (h p (List.mem_cons_self _ _)).2]
    ring

/-! ## Claim theorems -/

/-- C3: for every particle position, in exact real arithmetic, the 27
quadratic B-spline stencil weights of the MLS kernel, which are the products
of the per-axis weights `w0 = 0.5*(0.5-f)^2`, `w1 = 0.75-f^2`,
`w2 = 0.5*(0.5+f)^2` in the fractional offset, sum to exactly 1. -/
theorem mls_kernel_partition_of_unity :
    (∀ f : ℝ, wAxis (1 + f) 0 = 1/2 * (1/2 - f) ^ 2 ∧
      wAxis (1 + f) 1 = 3/4 - f ^ 2 ∧
      wAxis (1 + f) 2 = 1/2 * (1/2 + f) ^ 2) ∧
    ∀ xr yr zr : ℝ,
      ∑ n : Fin 3 × Fin 3 × Fin 3, kernelWeight xr yr zr n = 1 := by
  constructor
  · intro f
    refine ⟨?_, ?_, ?_⟩ <;>
      · simp only [wAxis, kernelA, kernelB, kernelC, kernelD,
          Matrix.cons_val_zero, Matrix.cons_val_one, Matrix.head_cons,
          Matrix.cons_val_two, Matrix.tail_cons]
        ring
  · exact kernelWeight_sum

/-- C9: `friction_project` is total: the only division it performs has the
denominator `max(1e-30, |tangential relative velocity|)`, which is strictly
positive for every input, including `v = v_base`. -/
theorem friction_project_total (velocity baseVelocity normal : V3) :
    0 < frictionDenominator velocity baseVelocity normal := by
  unfold frictionDenominator
  exact lt_of_lt_of_le (by norm_num) (le_max_left _ _)

/-- C2: for 24-bit grid and particle state words, the coloring test
`(grid & mask) != (particle & mask)` with
`mask = (grid & particle & state_mask) >> 1` holds iff there is a rigid body
index `r < 12` such that bit `2r+1` is set in both words and bit `2r`
differs between them. -/
theorem coloring_mismatch_iff (g p : ℕ) (hg : g < 2 ^ 24) (hp : p < 2 ^ 24) :
    colorMismatch g p ↔
      ∃ r : ℕ, r < 12 ∧ g.testBit (2 * r + 1) = true ∧
        p.testBit (2 * r + 1) = true ∧ g.testBit (2 * r) ≠ p.testBit (2 * r) := by
  have maskBit : ∀ j : ℕ, (coloringMask g p).testBit j =
      (g.testBit (j + 1) && p.testBit (j + 1) &&
        (decide ((j + 1) % 2 = 1) && decide (j + 1 < 24))) := by
    intro j
    unfold coloringMask
    have hc : 1 + j = j + 1 := Nat.add_comm 1 j
    rw [Nat.testBit_shiftRight, hc, Nat.testBit_land, Nat.testBit_land,
      stateMask_testBit]
  unfold colorMismatch
  constructor
  · intro h
    by_contra hno
    push_neg at hno
    apply h
    apply Nat.eq_of_testBit_eq
    intro j
    simp only [Nat.testBit_land, maskBit]
    by_cases hact : g.testBit (j + 1) = true ∧ p.testBit (j + 1) = true ∧
        (j + 1) % 2 = 1 ∧ j + 1 < 24
    · obtain ⟨h1, h2, h3, h4⟩ := hact
      have hj2 : 2 * (j / 2) = j := by omega
      have hjj : 2 * (j / 2) + 1 = j + 1 := by omega
      have hr12 : j / 2 < 12 := by omega
      have heq := hno (j / 2) hr12 (by rw [hjj]; exact h1) (by rw [hjj]; exact h2)
      rw [hj2] at heq
      rw [heq]
    · have hm : (g.testBit (j + 1) && p.testBit (j + 1) &&
          (decide ((j + 1) % 2 = 1) && decide (j + 1 < 24))) = false := by
        cases hgb : g.testBit (j + 1) with
        | false => simp
        | true =>
          cases hpb : p.testBit (j + 1) with
          | false => simp
          | true =>
            have hcd : ¬((j + 1) % 2 = 1 ∧ j + 1 < 24) := fun hc =>
              hact ⟨hgb, hpb, hc.1, hc.2⟩
            rcases not_and_or.mp hcd with hc | hc <;> simp [hc]
      rw [hm]
      simp
  · rintro ⟨r, hr, hga, hpa, hside⟩
    intro heq
    have h1 := congrArg (fun x => x.testBit (2 * r)) heq
    simp only [Nat.testBit_land, maskBit] at h1
    have hodd : (2 * r + 1) % 2 = 1 := by omega
    have hlt : 2 * r + 1 < 24 := by omega
    rw [hga, hpa] at h1
    simp [hodd, hlt] at h1
    exact hside h1

/-- Witness for C2: the words `g = 0b1100`, `p = 0b1000` are both active for
rigid body `1` (bit 3) and carry opposite side bits (bit 2), and the
coloring test indeed reports a mismatch. -/
theorem coloring_mismatch_iff_witness :
    (12 : ℕ) < 2 ^ 24 ∧ (8 : ℕ) < 2 ^ 24 ∧ colorMismatch 12 8 :=
  ⟨by norm_num, by norm_num,
    (coloring_mismatch_iff 12 8 (by norm_num) (by norm_num)).mpr
      ⟨1, by norm_num, by decide, by decide, by decide⟩⟩

/-- C7: for every 32-bit `states` word and every id `0 ≤ i < 2^8 - 1`,
`set_rigid_body_id(i)` makes `get_rigid_body_id()` return `i` (decoding
`(states >> tag_bits) - 1` with `tag_bits = 24`) while leaving the low 24
tag bits returned by `get_states()` unchanged; dually, `set_states` replaces
exactly the low 24 tag bits (the bits above `tag_bits`, and hence
`get_rigid_body_id()`, are unchanged). -/
theorem gridstate_pack_roundtrip (s i ns : ℕ) (hs : s < 2 ^ 32)
    (hi : i < 2 ^ 8 - 1) (hns : ns < 2 ^ 24) :
    getRigidBodyId (setRigidBodyId s i) = i ∧
    getStates (setRigidBodyId s i) = getStates s ∧
    getStates (setStates s ns) = ns ∧
    setStates s ns >>> tagBits = s >>> tagBits ∧
    getRigidBodyId (setStates s ns) = getRigidBodyId s := by
  have hi1 : i + 1 < 2 ^ 8 := by omega
  have hset := setRigidBodyId_unwrapped s i hs hi1
  have hsetS := setStates_unwrapped s ns hs hns
  have hshift : setRigidBodyId s i >>> tagBits = i + 1 := by
    rw [hset, tagBits_eq]
    apply Nat.eq_of_testBit_eq
    intro j
    simp only [Nat.testBit_shiftRight, Nat.testBit_lor, Nat.testBit_land,
      notIdMask_testBit, Nat.testBit_shiftLeft, tagBits_eq]
    have h1 : ¬ (24 + j < 24) := by omega
    have h2 : 24 + j ≥ 24 := by omega
    have h3 : 24 + j - 24 = j := by omega
    simp [h1, h2, h3]
  have hstshift : setStates s ns >>> tagBits = s >>> tagBits := by
    rw [hsetS, tagBits_eq]
    apply Nat.eq_of_testBit_eq
    intro j
    simp only [Nat.testBit_shiftRight, Nat.testBit_lor, Nat.testBit_land,
      notTagMask_testBit]
    have hnsb : ns.testBit (24 + j) = false :=
      testBit_high_false _ _ _ hns (by omega)
    by_cases hj : j < 8
    · have h1 : 24 ≤ 24 + j := by omega
      have h2 : 24 + j < 32 := by omega
      simp [h1, h2, hnsb]
    · have h3 : s.testBit (24 + j) = false :=
        testBit_high_false _ _ _ hs (by omega)
      simp [hnsb, h3]
  refine ⟨?_, ?_, ?_, hstshift, ?_⟩
  · unfold getRigidBodyId
    rw [hshift]
    push_cast
    ring
  · rw [hset]
    unfold getStates
    apply Nat.eq_of_testBit_eq
    intro j
    simp only [Nat.testBit_land, Nat.testBit_lor, notIdMask_testBit,
      Nat.testBit_shiftLeft, tagBits_eq]
    simp only [tagMask_eq, Nat.testBit_two_pow_sub_one]
    by_cases hj : j < 24
    · have h1 : ¬ j ≥ 24 := by omega
      simp [hj, h1]
    · simp [hj]
  · rw [hsetS]
    unfold getStates
    apply Nat.eq_of_testBit_eq
    intro j
    simp only [Nat.testBit_land, Nat.testBit_lor, notTagMask_testBit]
    simp only [tagMask_eq, Nat.testBit_two_pow_sub_one]
    by_cases hj : j < 24
    · have h1 : ¬ 24 ≤ j := by omega
      simp [hj, h1]
    · have h1 : ns.testBit j = false := testBit_high_false _ _ _ hns (by omega)
      simp [hj, h1]
  · unfold getRigidBodyId
    rw [hstshift]

/-- C1 counterexample: a single non-rigid particle of mass 1 whose `states`
word (bit 3: active for rigid 1) conflicts with the grid coloring (bits 3
and 2: active for rigid 1, opposite side) transfers no mass at all: the
rasterize loop diverts every stencil node into the rigid-impulse branch, so
the grid total is 0 while the particle masses sum to 1. -/
theorem p2g_mass_conservation_counterexample :
    gridTotalMass (p2gMassGrid (fun _ => 12) [⟨1, 1, 1, 1, 8, false⟩]) = 0 ∧
    (([⟨1, 1, 1, 1, 8, false⟩] : List MassParticle).map
      MassParticle.mass).sum = 1 := by
  constructor
  · have hmm : colorMismatch (getStates 12) 8 := by decide
    unfold p2gMassGrid
    simp only [List.foldl_cons, List.foldl_nil]
    rw [zero_add]
    unfold particleMassSpread
    rw [if_neg (by decide)]
    rw [Finset.sum_congr rfl fun n _ => if_pos hmm]
    rw [Finset.sum_const_zero, gridTotalMass_zero]
  · simp

/-- C1 (amended): after the P2G rasterize step, when no particle is rigid
and each particle's 27 stencil cells all have grid coloring compatible with
the particle's `states` (no rigid-body cut inside its support), the total
mass accumulated on the grid equals the sum of the particle masses exactly,
in exact arithmetic. -/
theorem p2g_mass_conservation (gridStates : ℤ × ℤ × ℤ → ℕ)
    (ps : List MassParticle)
    (h : ∀ p ∈ ps, p.isRigid = false ∧
      ∀ n : Fin 3 × Fin 3 × Fin 3,
        ¬ colorMismatch (getStates (gridStates (stencilCell p n))) p.states) :
    gridTotalMass (p2gMassGrid gridStates ps) =
      (ps.map MassParticle.mass).sum := by
  unfold p2gMassGrid
  rw [p2gMassGrid_total_from gridStates ps 0 h, gridTotalMass_zero, zero_add]

/-- Witness for C1 (amended): one free particle of mass 1 on an uncolored
grid deposits exactly total mass 1. -/
theorem p2g_mass_conservation_witness :
    gridTotalMass (p2gMassGrid (fun _ => 0) [⟨1, 1, 1, 1, 0, false⟩]) =
      (([⟨1, 1, 1, 1, 0, false⟩] : List MassParticle).map
        MassParticle.mass).sum := by
  apply p2g_mass_conservation
  intro p hp
  simp only [List.mem_singleton] at hp
  subst hp
  exact ⟨rfl, fun n => by decide⟩

/-- C4 counterexample: with `v = (1,0,-1)`, `v_base = (1,0,0)`,
`n = (0,0,1)` and zero friction, `rel = (0,0,-1)`, `rel . n = -1 < 0`, yet
`friction_project` returns `(1,0,0)` while the claimed value
`v - (rel . n)*n + v_base` is `(2,0,0)`. -/
theorem friction_project_mu_zero_counterexample :
    frictionProject ![1, 0, -1] ![1, 0, 0] ![0, 0, 1] 0 ≠
      ![1, 0, -1] - dot3 ![0, 0, 1] (![1, 0, -1] - ![1, 0, 0]) • ![0, 0, 1] +
        ![1, 0, 0] := by
  intro h
  have h0 := congrFun h 0
  norm_num [frictionProject, tangentialRelVel, frictionDenominator, length3,
    dot3, Fin.sum_univ_three, Pi.add_apply, Pi.sub_apply, Pi.smul_apply,
    smul_eq_mul, Matrix.cons_val_zero, Matrix.cons_val_one, Matrix.head_cons,
    Matrix.cons_val_two, Matrix.tail_cons] at h0

/-- C4 (amended): for zero friction and approaching relative velocity
(`rel . n < 0`), `friction_project(v, v_base, n, 0)` returns
`v - (rel . n)*n` (without the extra `+ v_base` of the claim), provided the
tangential relative velocity is either exactly zero or of norm at least the
`1e-30` guard of the scale quotient. -/
theorem friction_project_mu_zero (velocity baseVelocity normal : V3)
    (hrel : dot3 normal (velocity - baseVelocity) < 0)
    (hvt : length3 (tangentialRelVel velocity baseVelocity normal) = 0 ∨
      1e-30 ≤ length3 (tangentialRelVel velocity baseVelocity normal)) :
    frictionProject velocity baseVelocity normal 0 =
      velocity - dot3 normal (velocity - baseVelocity) • normal := by
  unfold frictionProject
  rw [if_neg (show (0 : ℝ) ≠ -1 by norm_num)]
  simp only [if_neg (show ¬ ((0 : ℝ) ≤ -2) by norm_num)]
  rw [mul_zero, add_zero]
  rcases hvt with h0 | hge
  · have hd0 : dot3 (tangentialRelVel velocity baseVelocity normal)
        (tangentialRelVel velocity baseVelocity normal) = 0 := by
      unfold length3 at h0
      exact (Real.sqrt_eq_zero (dot3_self_nonneg _)).mp h0
    have hvt0 : tangentialRelVel velocity baseVelocity normal = 0 :=
      dot3_self_eq_zero _ hd0
    rw [hvt0, smul_zero, zero_add, mul_one,
      max_eq_left (le_of_lt hrel), zero_smul, zero_add]
    have h3 : velocity - baseVelocity =
        dot3 normal (velocity - baseVelocity) • normal := by
      have h4 := hvt0
      unfold tangentialRelVel at h4
      exact sub_eq_zero.mp h4
    rw [← h3, sub_sub_cancel]
  · have htnpos : 0 < length3 (tangentialRelVel velocity baseVelocity normal) :=
      lt_of_lt_of_le (by norm_num) hge
    have hlen0 : (0 : ℝ) ≤ length3 (tangentialRelVel velocity baseVelocity normal) := by
      unfold length3
      exact Real.sqrt_nonneg _
    rw [max_eq_left hlen0]
    unfold frictionDenominator
    rw [max_eq_right hge, div_self (ne_of_gt htnpos), one_smul, mul_one,
      max_eq_left (le_of_lt hrel), zero_smul, add_zero]
    unfold tangentialRelVel
    abel

/-- Witness for C4 (amended) at `v = (0,0,-1)`, `v_base = 0`, `n = (0,0,1)`:
the relative normal speed is `-1 < 0`, the tangential part is zero, and the
projection returns `v - (rel . n)*n = 0`. -/
theorem friction_project_mu_zero_witness :
    dot3 ![0, 0, 1] ((![0, 0, -1] : V3) - 0) < 0 ∧
    frictionProject ![0, 0, -1] 0 ![0, 0, 1] 0 =
      (![0, 0, -1] : V3) - dot3 ![0, 0, 1] ((![0, 0, -1] : V3) - 0) •
        ![0, 0, 1] := by
  have hd : dot3 ![0, 0, 1] ((![0, 0, -1] : V3) - 0) < 0 := by
    norm_num [dot3, Fin.sum_univ_three, Pi.sub_apply, Pi.zero_apply,
      Matrix.cons_val_zero, Matrix.cons_val_one, Matrix.head_cons,
      Matrix.cons_val_two, Matrix.tail_cons]
  refine ⟨hd, friction_project_mu_zero ![0, 0, -1] 0 ![0, 0, 1] hd (Or.inl ?_)⟩
  have hvt : tangentialRelVel ![0, 0, -1] 0 ![0, 0, 1] = 0 := by
    funext i
    fin_cases i <;>
      norm_num [tangentialRelVel, dot3, Fin.sum_univ_three, Pi.sub_apply,
        Pi.smul_apply, Pi.zero_apply, smul_eq_mul, Matrix.cons_val_zero,
        Matrix.cons_val_one, Matrix.head_cons, Matrix.cons_val_two,
        Matrix.tail_cons]
  rw [hvt]
  unfold length3
  simp [dot3]

/-- C8 counterexample: on the generic `MPM<dim>::resample` path, a
near-boundary particle entering with `apic_c = 1` leaves with `apic_c = 1`,
not the zero matrix — that path only zeroes `apic_b`. -/
theorem resample_near_boundary_apic_counterexample :
    (resampleApicGeneric true (fun m => m) 0 0 1).2 ≠ 0 := by
  intro h
  have h0 : (resampleApicGeneric true (fun m => m) 0 0 1).2 = 1 := rfl
  rw [h0] at h
  have h1 := congrFun (congrFun h 0) 0
  simp [Matrix.one_apply] at h1

/-- C8 (amended): for a near-boundary particle, the rigid-block path of the
optimized 3D resample sets both `apic_b` and `apic_c` to the zero matrix;
the generic resample sets `apic_b` to zero but leaves `apic_c` unchanged. -/
theorem resample_near_boundary_apic (damp : Mat3 → Mat3)
    (b c apicB apicC : Mat3) :
    resampleApicRigid true damp b c apicB apicC = (0, 0) ∧
    (resampleApicGeneric true damp b apicB apicC).1 = 0 ∧
    (resampleApicGeneric true damp b apicB apicC).2 = apicC :=
  ⟨rfl, rfl, rfl⟩

/-- C5 counterexample: with `mu_0 = 1/2`, `yield_stress = 3/2` (radius
`3/2`) and singular values `(e, 1/e, 1)`, the deviatoric Hencky strain is
`(1, -1, 0)`, of Frobenius norm `sqrt 2 <= 3/2`; the claim then requires
return value 0, but the code compares the SQUARED norm `2 > 3/2` and
returns 1. -/
theorem von_mises_plasticity_yield_counterexample :
    Real.sqrt (vmDevNorm2 ![Real.exp 1, Real.exp (-1), 1]) ≤ 3/2 / (2 * (1/2)) ∧
    (vonMisesPlasticity (1/2) (3/2) 1 1 1 1 ![Real.exp 1, Real.exp (-1), 1]).2 =
      1 := by
  have hnorm : vmDevNorm2 ![Real.exp 1, Real.exp (-1), 1] = 2 := by
    unfold vmDevNorm2 vmEpsilonHat vmTraceEpsilon
    simp only [vmEpsilon, Fin.sum_univ_three, Matrix.cons_val_zero,
      Matrix.cons_val_one, Matrix.head_cons, Matrix.cons_val_two,
      Matrix.tail_cons, Real.log_exp, Real.log_one]
    norm_num
  constructor
  · rw [hnorm]
    rw [show (3/2 / (2 * (1/2)) : ℝ) = Real.sqrt ((3/2)^2) by
      rw [Real.sqrt_sq (by norm_num)]; norm_num]
    exact Real.sqrt_le_sqrt (by norm_num)
  · have hcond : ¬ (vmDevNorm2 ![Real.exp 1, Real.exp (-1), 1] -
        3/2 / (2 * (1/2)) ≤ 0) := by
      rw [hnorm]
      norm_num
    unfold vonMisesPlasticity
    rw [if_neg hcond]

/-- C5 (amended): `VonMisesParticle::plasticity(F_inc)` first updates `dg_e`
to `F_inc * dg_e`; it leaves the updated `dg_e` unchanged and returns 0
exactly when the SQUARED Frobenius norm of the deviatoric Hencky strain is
at most `yield_stress / (2 * mu_0)`, and otherwise returns 1 after rebuilding
`dg_e` from the rescaled strain. -/
theorem von_mises_plasticity_yield (mu0 yieldStress : ℝ) (dgE cdg U V : Mat3)
    (sigma : Fin 3 → ℝ) :
    ((vonMisesPlasticity mu0 yieldStress dgE cdg U V sigma).2 = 0 ↔
      vmDevNorm2 sigma ≤ yieldStress / (2 * mu0)) ∧
    (vmDevNorm2 sigma ≤ yieldStress / (2 * mu0) →
      (vonMisesPlasticity mu0 yieldStress dgE cdg U V sigma).1 = cdg * dgE) ∧
    (yieldStress / (2 * mu0) < vmDevNorm2 sigma →
      (vonMisesPlasticity mu0 yieldStress dgE cdg U V sigma).2 = 1) := by
  unfold vonMisesPlasticity
  by_cases h : vmDevNorm2 sigma - yieldStress / (2 * mu0) ≤ 0
  · rw [if_pos h]
    exact ⟨⟨fun _ => by linarith, fun _ => rfl⟩, fun _ => rfl,
      fun hgt => by linarith⟩
  · rw [if_neg h]
    push_neg at h
    refine ⟨⟨fun h1 => by simp at h1, fun h2 => by linarith⟩,
      fun h2 => by linarith, fun _ => rfl⟩

/-- Witness for C5 (amended) at `sigma = (1,1,1)` (zero Hencky strain),
`mu_0 = 1`, `yield_stress = 2`: the squared deviatoric norm is `0 <= 1`,
the counter is 0 and `dg_e` is exactly `F_inc * dg_e`. -/
theorem von_mises_plasticity_yield_witness :
    (vonMisesPlasticity 1 2 1 1 1 1 (fun _ => 1)).2 = 0 ∧
    (vonMisesPlasticity 1 2 1 1 1 1 (fun _ => 1)).1 = 1 * 1 := by
  have hnorm : vmDevNorm2 (fun _ => (1 : ℝ)) ≤ 2 / (2 * 1) := by
    unfold vmDevNorm2 vmEpsilonHat vmTraceEpsilon
    simp only [vmEpsilon, Real.log_one, Fin.sum_univ_three]
    norm_num
  have h := von_mises_plasticity_yield 1 2 1 1 1 1 (fun _ => 1)
  exact ⟨h.1.mpr hnorm, h.2.1 hnorm⟩

/-- C6: when the density `rho = mass / (vol * det(dg_t))` computed after the
update `dg_t <- F_inc * dg_t` is below the critical density, the Nonlocal
plasticity sets `T = 0`, `p = 0`, `dg_p = dg_t` (the updated one), and
`gf = max(0, gamma_dot_eq / mu_2)` with `gamma_dot_eq` the equivalent shear
strain rate derived from `F_inc`. -/
theorem nonlocal_disconnected (pr : NonlocalParams) (st : NonlocalState)
    (cdg : Mat3) (laplacian_gf : ℝ) (U V : Mat3) (sig : Fin 3 → ℝ)
    (h : st.mass / st.vol / (cdg * st.dg_t).det < pr.rho_c) :
    (nonlocalPlasticity pr st cdg laplacian_gf U V sig).T = 0 ∧
    (nonlocalPlasticity pr st cdg laplacian_gf U V sig).p = 0 ∧
    (nonlocalPlasticity pr st cdg laplacian_gf U V sig).dg_p =
      cdg * st.dg_t ∧
    (nonlocalPlasticity pr st cdg laplacian_gf U V sig).dg_t =
      cdg * st.dg_t ∧
    (nonlocalPlasticity pr st cdg laplacian_gf U V sig).gf =
      max 0 (nonlocalKinematics cdg pr.delta_t / pr.mu_2) := by
  unfold nonlocalPlasticity
  rw [if_pos (Or.inl h)]
  exact ⟨rfl, rfl, rfl, rfl, rfl⟩

/-- Witness for C6 at the identity configuration with `rho = 1 < rho_c = 2`. -/
theorem nonlocal_disconnected_witness :
    (1 : ℝ) / 1 / ((1 * 1 : Mat3)).det < 2 ∧
    ((nonlocalPlasticity ⟨1, 1, 1, 1, 1, 2, 1, 1, 1, 1, 1⟩
        ⟨1, 1, 1, 5, 0, 3, 1, 1⟩ 1 0 1 1 fun _ => 1).T = 0 ∧
      (nonlocalPlasticity ⟨1, 1, 1, 1, 1, 2, 1, 1, 1, 1, 1⟩
        ⟨1, 1, 1, 5, 0, 3, 1, 1⟩ 1 0 1 1 fun _ => 1).p = 0 ∧
      (nonlocalPlasticity ⟨1, 1, 1, 1, 1, 2, 1, 1, 1, 1, 1⟩
        ⟨1, 1, 1, 5, 0, 3, 1, 1⟩ 1 0 1 1 fun _ => 1).dg_p = 1 * 1 ∧
      (nonlocalPlasticity ⟨1, 1, 1, 1, 1, 2, 1, 1, 1, 1, 1⟩
        ⟨1, 1, 1, 5, 0, 3, 1, 1⟩ 1 0 1 1 fun _ => 1).dg_t = 1 * 1 ∧
      (nonlocalPlasticity ⟨1, 1, 1, 1, 1, 2, 1, 1, 1, 1, 1⟩
        ⟨1, 1, 1, 5, 0, 3, 1, 1⟩ 1 0 1 1 fun _ => 1).gf =
        max 0 (nonlocalKinematics 1 1 / 1)) := by
  have hrho : (1 : ℝ) / 1 / ((1 * 1 : Mat3)).det < 2 := by
    rw [one_mul, Matrix.det_one]
    norm_num
  exact ⟨hrho,
    nonlocal_disconnected ⟨1, 1, 1, 1, 1, 2, 1, 1, 1, 1, 1⟩
      ⟨1, 1, 1, 5, 0, 3, 1, 1⟩ 1 0 1 1 (fun _ => 1) hrho⟩

/-- The determinant of the quadratic truncation is continuous in `dt` and
equals 1 at `dt = 0`, so it is positive on a neighbourhood of 0. -/
theorem approxExpStep_det_pos_near_zero (m : Mat3) :
    ∃ δ > 0, ∀ t : ℝ, |t| < δ → 0 < (approxExpStep m t).det := by
  have hc : Continuous fun t : ℝ => (approxExpStep m t).det := by
    apply Continuous.matrix_det
    unfold approxExpStep
    have h1 : Continuous fun t : ℝ => t • m := by fun_prop
    have h2 : Continuous fun t : ℝ => (1/2 : ℝ) • (t • m) + 1 := by fun_prop
    exact (h2.matrix_mul h1).add continuous_const
  have h0 : (approxExpStep m 0).det = 1 := by
    unfold approxExpStep
    simp
  have htend : Filter.Tendsto (fun t : ℝ => (approxExpStep m t).det)
      (nhds 0) (nhds 1) := by
    have hca := hc.continuousAt (x := 0)
    rwa [ContinuousAt, h0] at hca
  have hev : ∀ᶠ t in nhds (0 : ℝ), 0 < (approxExpStep m t).det :=
    htend.eventually (eventually_gt_nhds (by norm_num))
  rcases Metric.eventually_nhds_iff.mp hev with ⟨δ, hδ, hball⟩
  exact ⟨δ, hδ, fun t ht => hball (by simpa [Real.dist_eq] using ht)⟩

/-- Once `dt / 2 ^ k` falls below the positivity radius `δ`, fuel `k + 1`
suffices for `approximate_exponent` to return. -/
theorem approximateExponent_some_of_small (m : Mat3) (δ : ℝ)
    (hδ : ∀ t : ℝ, |t| < δ → 0 < (approxExpStep m t).det) :
    ∀ (k : ℕ) (dt : ℝ), 0 < dt → dt < δ * 2 ^ k →
      (approximateExponent m (k + 1) dt).isSome = true := by
  intro k
  induction k with
  | zero =>
    intro dt hdt hlt
    have habs : |dt| < δ := by
      rw [abs_of_pos hdt]
      simpa using hlt
    unfold approximateExponent
    rw [if_pos (hδ dt habs)]
    rfl
  | succ k ih =>
    intro dt hdt hlt
    unfold approximateExponent
    by_cases hdet : 0 < (approxExpStep m dt).det
    · rw [if_pos hdet]
      rfl
    · rw [if_neg hdet, Option.isSome_map']
      apply ih (dt / 2) (by positivity)
      rw [div_lt_iff₀ (by norm_num : (0 : ℝ) < 2)]
      calc dt < δ * 2 ^ (k + 1) := hlt
      _ = δ * 2 ^ k * 2 := by ring

/-- C10: `ViscoParticle::approximate_exponent(dt, m)` terminates for every
matrix `m` and every `dt > 0`: each recursive call halves `dt`, and for
sufficiently small `dt` the quadratic truncation of the matrix exponential
has positive determinant, which ends the recursion.  Stated on the
fuel-indexed embedding: some finite recursion depth returns a value. -/
theorem approximate_exponent_terminates (m : Mat3) (dt : ℝ) (hdt : 0 < dt) :
    ∃ fuel : ℕ, (approximateExponent m fuel dt).isSome = true := by
  obtain ⟨δ, hδpos, hδ⟩ := approxExpStep_det_pos_near_zero m
  obtain ⟨k, hk⟩ : ∃ k : ℕ, dt / δ < 2 ^ k :=
    pow_unbounded_of_one_lt (dt / δ) (by norm_num)
  refine ⟨k + 1, approximateExponent_some_of_small m δ hδ k dt hdt ?_⟩
  rw [div_lt_iff₀ hδpos] at hk
  calc dt < 2 ^ k * δ := hk
  _ = δ * 2 ^ k := by ring

/-- Witness for C10 at `m = 0`, `dt = 1`: the recursion returns at once. -/
theorem approximate_exponent_terminates_witness :
    0 < (1 : ℝ) ∧
    ∃ fuel : ℕ, (approximateExponent 0 fuel 1).isSome = true :=
  ⟨by norm_num, approximate_exponent_terminates 0 1 (by norm_num)⟩

/-- Witness for C7 at a concrete 32-bit word, id and tag word. -/
theorem gridstate_pack_roundtrip_witness :
    getRigidBodyId (setRigidBodyId 0x12345678 7) = 7 ∧
    getStates (setRigidBodyId 0x12345678 7) = getStates 0x12345678 ∧
    getStates (setStates 0x12345678 0xFFF) = 0xFFF ∧
    setStates 0x12345678 0xFFF >>> tagBits = 0x12345678 >>> tagBits ∧
    getRigidBodyId (setStates 0x12345678 0xFFF) = getRigidBodyId 0x12345678 :=
  gridstate_pack_roundtrip 0x12345678 7 0xFFF (by norm_num) (by norm_num)
    (by norm_num)

end MPMNGF
